import Mathlib

/-!
Verification of the depot package cache server against its specification.
The Go source is shallowly embedded: pure fragments of the handlers and
stores become Lean functions, stateful code becomes explicit state passing,
and the concurrent S3 upload writer becomes a small step relation.
-/

namespace Depot

/-! ### Go standard library string helpers used by the handlers

Go strings are modelled through the character lists underlying Lean
strings, with structural recursion throughout so every definition
evaluates by kernel reduction. -/

/-- Split of a character list at every occurrence of one character,
keeping empty fields, accumulating the current field reversed. -/
def splitCharAux (sep : Char) : List Char → List Char → List (List Char)
  | [], acc => [acc.reverse]
  | c :: rest, acc =>
    if c = sep then acc.reverse :: splitCharAux sep rest []
    else splitCharAux sep rest (c :: acc)

/-- Embedding of Go strings.Split with a one-character separator. -/
def goSplitChar (s : String) (sep : Char) : List String :=
  (splitCharAux sep s.data []).map String.mk

/-- Embedding of Go strings.HasSuffix. -/
def goHasSuffix (s suffix : String) : Bool :=
  suffix.data.isSuffixOf s.data

/-- Embedding of Go strings.HasPrefix. -/
def goHasPfx (s pre : String) : Bool :=
  pre.data.isPrefixOf s.data

/-- Removal of the last n characters of a string. -/
def strDropRight (s : String) (n : Nat) : String :=
  String.mk (s.data.take (s.data.length - n))

/-- Removal of the first n characters of a string. -/
def strDrop (s : String) (n : Nat) : String :=
  String.mk (s.data.drop n)

/-- Embedding of Go strings.TrimSuffix: drops the suffix when present. -/
def goTrimSuffix (s suffix : String) : String :=
  if goHasSuffix s suffix then strDropRight s suffix.length else s

/-- Embedding of Go strings.SplitN with n = 2 and a one-character
separator: splits around the first occurrence, keeping the remainder
intact. -/
def goSplitN2 (s : String) (sep : Char) : List String :=
  match goSplitChar s sep with
  | [] => [s]
  | x :: rest =>
    if rest.isEmpty then [x] else [x, String.intercalate (String.mk [sep]) rest]

/-- Embedding of Go path.Base / filepath.Base on Unix paths: strips trailing
slashes, then keeps the part after the final slash. -/
def goPathBase (p : String) : String :=
  if p = "" then "."
  else
    let q := String.mk ((p.data.reverse.dropWhile (fun c => c = '/')).reverse)
    if q = "" then "/"
    else String.mk ((q.data.reverse.takeWhile (fun c => c ≠ '/')).reverse)

/-! ### Nix narinfo handler (src/nix/handlers/narinfo/handler.go) -/

/-- Embedding of the narinfo record as used by Handler.Put: the store path,
the fields that feed the canonical fingerprint, and the signature list.
Signatures are carried as opaque strings of the form keyname:base64sig. -/
structure NarInfo where
  storePath : String
  narHash : String
  narSize : Nat
  references : List String
  signatures : List String
  deriving DecidableEq, Repr

/-- Canonical Nix fingerprint of a narinfo, per the go-nix convention:
the StorePath, NarHash, NarSize and References joined in the documented
layout. Handler.Put signs exactly this string. -/
def NarInfo.fingerprint (ni : NarInfo) : String :=
  "1;" ++ ni.storePath ++ ";" ++ ni.narHash ++ ";" ++ toString ni.narSize ++
    ";" ++ String.intercalate "," ni.references

/-- Embedding of getHashPartFromStorePath: base name of the store path,
split on the first dash, first component. -/
def getHashPartFromStorePath (storePath : String) : String :=
  let base := goPathBase storePath
  match goSplitN2 base '-' with
  | p :: _ => p
  | [] => ""

/-- The narinfo database is keyed by URL path; PutNarInfo overwrites the
record stored under the key. -/
abbrev NarDb := List (String × NarInfo)

/-- Lookup in the narinfo database. -/
def narDbGet (db : NarDb) (key : String) : Option NarInfo :=
  (db.find? (fun kv => kv.1 = key)).map (fun kv => kv.2)

/-- Embedding of db.PutNarInfo: store the record under the URL path,
replacing any previous record at that key. -/
def narDbPut (db : NarDb) (key : String) (ni : NarInfo) : NarDb :=
  (key, ni) :: (db.filter (fun kv => kv.1 ≠ key))

/-- HTTP outcome of the narinfo Put handler. -/
inductive PutStatus where
  | badRequest
  | created
  deriving DecidableEq, Repr

/-- Embedding of Handler.Put from src/nix/handlers/narinfo/handler.go.
The body has already been read; parsing is represented by the Option
argument (none = narinfo.Parse failed). A configured signing key is a
function from the fingerprint to the signature string, matching
privateKey.Sign over ni.Fingerprint(). -/
def handlerPut (privateKey : Option (String → String)) (db : NarDb)
    (urlPath : String) (parsed : Option NarInfo) : PutStatus × NarDb :=
  match parsed with
  | none => (PutStatus.badRequest, db)
  | some ni =>
    let expectedHashPart := goTrimSuffix (goPathBase urlPath) ".narinfo"
    let actualHashPart := getHashPartFromStorePath ni.storePath
    if actualHashPart ≠ expectedHashPart then
      (PutStatus.badRequest, db)
    else
      let signed :=
        match privateKey with
        | some sign => { ni with signatures := ni.signatures ++ [sign ni.fingerprint] }
        | none => ni
      (PutStatus.created, narDbPut db urlPath signed)

/-! ### Go net/url path escaping and path Join/Clean

The key/value store keys are built with url.PathEscape and path.Join.
The embedding works per character; for the ASCII inputs used by the key
schema this agrees with the byte-level Go implementation. -/

/-- Upper-case hexadecimal digit for a value below 16. -/
def upperHexDigit (n : Nat) : Char :=
  if n < 10 then Char.ofNat (48 + n) else Char.ofNat (55 + n)

/-- Embedding of Go shouldEscape in encodePathSegment mode: alphanumerics,
the RFC 3986 unreserved marks, and the sub-delims allowed in a path
segment stay; everything else is percent-encoded. -/
def pathShouldEscape (c : Char) : Bool :=
  if ('a' ≤ c ∧ c ≤ 'z') ∨ ('A' ≤ c ∧ c ≤ 'Z') ∨ ('0' ≤ c ∧ c ≤ '9') then false
  else if c = '-' ∨ c = '_' ∨ c = '.' ∨ c = '~' then false
  else if c = '$' ∨ c = '&' ∨ c = '+' ∨ c = ':' ∨ c = '=' ∨ c = '@' then false
  else true

/-- Percent-encoding for one character. -/
def pathEscapeChar (c : Char) : List Char :=
  if pathShouldEscape c then
    ['%', upperHexDigit (c.toNat / 16 % 16), upperHexDigit (c.toNat % 16)]
  else [c]

/-- Embedding of Go url.PathEscape. -/
def pathEscape (s : String) : String :=
  String.mk (s.toList.map pathEscapeChar).flatten

/-- Value of one hexadecimal digit, in either case. -/
def hexDigitVal (c : Char) : Option Nat :=
  if '0' ≤ c ∧ c ≤ '9' then some (c.toNat - 48)
  else if 'a' ≤ c ∧ c ≤ 'f' then some (c.toNat - 87)
  else if 'A' ≤ c ∧ c ≤ 'F' then some (c.toNat - 55)
  else none

/-- Percent-decoding over a character list; a stray or malformed percent
sign fails, as in Go url.PathUnescape. -/
def pathUnescapeChars : List Char → Option (List Char)
  | [] => some []
  | '%' :: a :: b :: rest =>
    match hexDigitVal a, hexDigitVal b with
    | some ha, some hb =>
      (pathUnescapeChars rest).map (fun l => Char.ofNat (16 * ha + hb) :: l)
    | _, _ => none
  | '%' :: _ => none
  | c :: rest => (pathUnescapeChars rest).map (fun l => c :: l)

/-- Embedding of Go url.PathUnescape. -/
def pathUnescape (s : String) : Option String :=
  (pathUnescapeChars s.toList).map String.mk

/-- One step of the Go path.Clean segment machine: empty and dot segments
vanish, dot-dot pops the previous segment (or is kept when unrooted). -/
def cleanSegsStep (rooted : Bool) (acc : List String) (seg : String) : List String :=
  if seg = "" ∨ seg = "." then acc
  else if seg = ".." then
    match acc with
    | [] => if rooted then [] else [".."]
    | a :: rest => if a = ".." then seg :: acc else rest
  else seg :: acc

/-- Embedding of Go path.Clean. -/
def goPathClean (p : String) : String :=
  if p = "" then "."
  else
    let rooted := goHasPfx p "/"
    let out := ((goSplitChar p '/').foldl (cleanSegsStep rooted) []).reverse
    if out = [] then (if rooted then "/" else ".")
    else (if rooted then "/" else "") ++ String.intercalate "/" out

/-- Embedding of Go path.Join: concatenate the elements with slashes,
skipping leading empties, then Clean; all-empty input yields the empty
string. -/
def goPathJoin (elems : List String) : String :=
  let buf := elems.foldl (fun buf e =>
    if buf.length > 0 ∨ e ≠ "" then
      (if buf.length > 0 then buf ++ "/" else buf) ++ e
    else buf) ""
  if buf = "" then "" else goPathClean buf

/-- Embedding of Go strings.TrimPrefix. -/
def goTrimLead (s pre : String) : String :=
  if goHasPfx s pre then strDrop s pre.length else s

/-! ### The key/value store (the a-h/kv interface)

Put with expected version -1 is an unconditional upsert that increments
the per-key version, the contract the access log and download counter
rely on (the code comments state it: every time we upsert a key with Put,
the version number is incremented). -/

/-- One stored row: key, value and its version counter. -/
structure KVRec where
  key : String
  value : String
  version : Nat
  deriving DecidableEq, Repr

/-- The store is the list of rows, each key held at most once by
construction. -/
abbrev KVStore := List KVRec

/-- Unconditional upsert: a new key enters at version 1, an existing key
keeps its value slot updated and its version incremented. -/
def kvPut : KVStore → String → String → KVStore
  | [], k, v => [⟨k, v, 1⟩]
  | r :: rest, k, v =>
    if r.key = k then ⟨k, v, r.version + 1⟩ :: rest else r :: kvPut rest k v

/-- Version of a key, zero when absent. -/
def kvVersion (s : KVStore) (k : String) : Nat :=
  ((s.find? (fun r => r.key = k)).map (fun r => r.version)).getD 0

/-- GetPrefix: the rows whose key starts with the given string. -/
def kvGetPfx (s : KVStore) (pfx : String) : List KVRec :=
  s.filter (fun r => goHasPfx r.key pfx)

/-! ### Access log (the accesslog package) -/

/-- Key layout of the access log: /accesslog/{escaped filename}/{day}/{op}. -/
def accessLogKey (filename day op : String) : String :=
  goPathJoin ["/accesslog", pathEscape filename, day, op]

/-- Embedding of AccessLog.Read: empty-value Put under the r segment. -/
def accessLogRead (s : KVStore) (day filename : String) : KVStore :=
  kvPut s (accessLogKey filename day "r") ""

/-- Embedding of AccessLog.Write: empty-value Put under the w segment. -/
def accessLogWrite (s : KVStore) (day filename : String) : KVStore :=
  kvPut s (accessLogKey filename day "w") ""

/-- Embedding of AccessLog.Delete: empty-value Put under the d segment. -/
def accessLogDelete (s : KVStore) (day filename : String) : KVStore :=
  kvPut s (accessLogKey filename day "d") ""

/-- Shape check standing in for Go time.Parse with layout 2006-01-02:
four digits, dash, two digits, dash, two digits. -/
def parseDateISO (s : String) : Option String :=
  match s.toList with
  | [y1, y2, y3, y4, h1, m1, m2, h2, d1, d2] =>
    if y1.isDigit ∧ y2.isDigit ∧ y3.isDigit ∧ y4.isDigit ∧ h1 = '-' ∧
       m1.isDigit ∧ m2.isDigit ∧ h2 = '-' ∧ d1.isDigit ∧ d2.isDigit then
      some s
    else none
  | _ => none

/-- One per-day tally as surfaced by AccessLog.Get and Counter.Get. -/
structure AccessCount where
  date : String
  count : Nat
  deriving DecidableEq, Repr

/-- Stats record built by AccessLog.Get. -/
structure AccessStats where
  filename : String
  reads : List AccessCount
  writes : List AccessCount
  deletes : List AccessCount
  deriving DecidableEq, Repr

/-- Loop body of AccessLog.Get: parse one row key into its four segments
and route the version counter into the read, write or delete tallies;
malformed keys abort with an error (here: none). -/
def accessLogGetStep (acc : AccessStats × Bool) (row : KVRec) :
    Option (AccessStats × Bool) :=
  match goSplitChar (goTrimLead row.key "/") '/' with
  | [_, _, d, op] =>
    match parseDateISO d with
    | none => none
    | some date =>
      let count : AccessCount := ⟨date, row.version⟩
      match op with
      | "r" => some ({ acc.1 with reads := acc.1.reads ++ [count] }, true)
      | "w" => some ({ acc.1 with writes := acc.1.writes ++ [count] }, true)
      | "d" => some ({ acc.1 with deletes := acc.1.deletes ++ [count] }, true)
      | _ => none
  | _ => none

/-- Embedding of AccessLog.Get: scan the filename prefix and fold the
rows into the stats record. The returned Bool is the ok flag. -/
def accessLogGet (s : KVStore) (filename : String) : Option (AccessStats × Bool) :=
  (kvGetPfx s (goPathJoin ["/accesslog", pathEscape filename] ++ "/")).foldlM
    accessLogGetStep (⟨filename, [], [], []⟩, false)

/-! ### Download counter (src/downloadcounter/background.go) -/

/-- Embedding of Counter.buildCounterKey. -/
def buildCounterKey (group name date : String) : String :=
  goPathJoin ["/downloadcounter", pathEscape group, pathEscape name, date]

/-- Embedding of Counter.buildCounterPrefix. -/
def buildCounterPfx (group name : String) : String :=
  goPathJoin ["/downloadcounter", pathEscape group, pathEscape name] ++ "/"

/-- Embedding of Counter.Increment: empty-value Put against the day key;
the day is the truncated clock value, passed explicitly here. -/
def counterIncrement (s : KVStore) (day group name : String) : KVStore :=
  kvPut s (buildCounterKey group name day) ""

/-- Loop body of Counter.Get: every row key must split into five
segments whose last is the date; the count is the row version. -/
def counterGetStep (acc : List AccessCount) (row : KVRec) :
    Option (List AccessCount) :=
  match goSplitChar row.key '/' with
  | [_, _, _, _, d] =>
    (parseDateISO d).map (fun date => acc ++ [(⟨date, row.version⟩ : AccessCount)])
  | _ => none

/-- Embedding of Counter.Get: scan the group/name prefix and fold the
rows into the per-day counts. -/
def counterGet (s : KVStore) (group name : String) : Option (List AccessCount) :=
  (kvGetPfx s (buildCounterPfx group name)).foldlM counterGetStep []

/-! ### Logged storage decorator (src/loggedstorage/loggedstorage.go) -/

/-- Access event kinds enqueued by the decorator. -/
inductive EventType where
  | read
  | write
  | delete
  deriving DecidableEq, Repr

/-- Embedding of the event record. -/
structure Event where
  filename : String
  type : EventType
  deriving DecidableEq, Repr

/-- Embedding of the background consumer switch in newBufferedAccessLog:
read events go to AccessLog.Read, write events to AccessLog.Write, and
delete events are also dispatched to AccessLog.Write. -/
def consumeEvent (s : KVStore) (day : String) (e : Event) : KVStore :=
  match e.type with
  | EventType.read => accessLogRead s day e.filename
  | EventType.write => accessLogWrite s day e.filename
  | EventType.delete => accessLogWrite s day e.filename

/-- Draining a queue of events through the consumer. -/
def consumeEvents (s : KVStore) (day : String) (es : List Event) : KVStore :=
  es.foldl (fun s e => consumeEvent s day e) s

/-- Outcome triple of the wrapped Storage.Stat call. -/
structure StatResult where
  size : Int
  found : Bool
  hasError : Bool
  deriving DecidableEq, Repr

/-- Embedding of LoggedStorage.Stat: forward the wrapped result; enqueue a
read event exactly when the wrapped call returned no error, regardless of
the exists flag. -/
def loggedStat (filename : String) (wrapped : StatResult) : StatResult × List Event :=
  if wrapped.hasError then (wrapped, [])
  else (wrapped, [⟨filename, EventType.read⟩])

/-- Outcome of the wrapped Storage.Get call (the reader payload is
irrelevant to the logging decision). -/
structure GetResult where
  found : Bool
  hasError : Bool
  deriving DecidableEq, Repr

/-- Embedding of LoggedStorage.Get: same event policy as Stat. -/
def loggedGet (filename : String) (wrapped : GetResult) : GetResult × List Event :=
  if wrapped.hasError then (wrapped, [])
  else (wrapped, [⟨filename, EventType.read⟩])

/-! ### Authentication (src/auth and the auth middleware)

SSH public keys are represented by their SHA-256 fingerprint string, so
ssh.FingerprintSHA256 is the identity of the representation. The
authorized-keys parser from the external ssh library is a parameter. -/

/-- Embedding of auth.AuthorizedKey: the permission field holds r or w,
the public key is represented by its fingerprint. -/
structure AuthorizedKey where
  permission : String
  publicKey : String
  deriving DecidableEq, Repr

/-- Embedding of auth.AuthConfig. -/
structure AuthConfig where
  keys : List AuthorizedKey
  requireAuthForRead : Bool
  deriving DecidableEq, Repr

/-- Split of a character list at every character satisfying the
predicate, keeping empty fields. -/
def splitPredAux (p : Char → Bool) : List Char → List Char → List (List Char)
  | [], acc => [acc.reverse]
  | c :: rest, acc =>
    if p c then acc.reverse :: splitPredAux p rest []
    else splitPredAux p rest (c :: acc)

/-- ASCII whitespace as used by the auth file format. -/
def isSpaceChar (c : Char) : Bool :=
  c = ' ' ∨ c = '\t' ∨ c = '\n' ∨ c = '\r'

/-- Embedding of Go strings.Fields: split around runs of whitespace. -/
def goFields (s : String) : List String :=
  ((splitPredAux isSpaceChar s.data []).map String.mk).filter (fun p => p ≠ "")

/-- Embedding of Go strings.TrimSpace. -/
def goTrimSpace (s : String) : String :=
  String.mk (((s.data.dropWhile isSpaceChar).reverse.dropWhile isSpaceChar).reverse)

/-- Permission-field switch of LoadAuthConfig: r yields PermissionRead
and sets RequireAuthForRead, w yields PermissionReadWrite and keeps the
flag, anything else is an error. -/
def parsePermission (cfg : AuthConfig) (p0 : String) : Option (String × Bool) :=
  if p0 = "r" then some ("r", true)
  else if p0 = "w" then some ("w", cfg.requireAuthForRead)
  else none

/-- Processing of one line of the auth file inside LoadAuthConfig: trim,
skip blanks and comments, require at least three fields, parse the
permission, rejoin and parse the key part, append the parsed key. -/
def loadAuthLine (parseKey : String → Option String) (cfg : AuthConfig)
    (rawLine : String) : Option AuthConfig :=
  let line := goTrimSpace rawLine
  if line = "" ∨ goHasPfx line "#" then some cfg
  else
    match goFields line with
    | p0 :: k1 :: k2 :: krest =>
      (parsePermission cfg p0).bind (fun pr =>
        (parseKey (String.intercalate " " (k1 :: k2 :: krest))).map (fun pk =>
          { keys := cfg.keys ++ [⟨pr.1, pk⟩], requireAuthForRead := pr.2 }))
    | _ => none

/-- Embedding of auth.LoadAuthConfig over the list of file lines. -/
def loadAuthConfig (parseKey : String → Option String)
    (lines : List String) : Option AuthConfig :=
  lines.foldlM (loadAuthLine parseKey) ⟨[], false⟩

/-- HTTP request as seen by the middleware: method and the Authorization
header, the empty string standing for an absent header. -/
structure Request where
  method : String
  authHeader : String
  deriving DecidableEq, Repr

/-- Middleware outcome: pass to the next handler, 401, or 403. -/
inductive MwResult where
  | next
  | unauthorized
  | forbidden
  deriving DecidableEq, Repr

/-- Bearer token extraction as done by the middleware. -/
def bearerToken (authHeader : String) : String :=
  if goHasPfx authHeader "Bearer " then goTrimLead authHeader "Bearer "
  else authHeader

/-- Embedding of the auth Middleware.ServeHTTP. The JWT verifier is a
parameter standing for auth.VerifyJWT: it maps the token and the config
to the key fingerprint on success. -/
def serveHTTP (cfg : AuthConfig) (verify : String → AuthConfig → Option String)
    (r : Request) : MwResult :=
  if cfg.keys.isEmpty then MwResult.next
  else
    let isWriteOperation := r.method = "PUT" ∨ r.method = "POST" ∨ r.method = "DELETE"
    if ¬isWriteOperation ∧ ¬cfg.requireAuthForRead then MwResult.next
    else if r.authHeader = "" then MwResult.unauthorized
    else
      match verify (bearerToken r.authHeader) cfg with
      | none => MwResult.unauthorized
      | some fp =>
        match cfg.keys.find? (fun k => k.publicKey = fp) with
        | none => MwResult.unauthorized
        | some k =>
          if isWriteOperation ∧ k.permission ≠ "w" then MwResult.forbidden
          else MwResult.next

/-! ### JWT verification (src/auth/jwt.go)

The keyfunc passed to jwt.ParseWithClaims type-switches on the signing
method: any method of the RSA family or the ECDSA family is acceptable,
everything else is rejected. The cryptographic signature check and the
registered-claims validation performed by the jwt library are abstracted
into two Boolean fields of the token. -/

/-- JWT header algorithms, grouped as the golang-jwt method types group
them: the RS algorithms share one Go type, the ES algorithms another. -/
inductive JwtAlg where
  | rs256
  | rs384
  | rs512
  | es256
  | es384
  | es512
  | ps256
  | hs256
  | algNone
  deriving DecidableEq, Repr

/-- The keyfunc type switch: SigningMethodRSA and SigningMethodECDSA pass,
all other method types (HMAC, none, RSA-PSS and the rest) fail. -/
def methodAccepted : JwtAlg → Bool
  | JwtAlg.rs256 => true
  | JwtAlg.rs384 => true
  | JwtAlg.rs512 => true
  | JwtAlg.es256 => true
  | JwtAlg.es384 => true
  | JwtAlg.es512 => true
  | _ => false

/-- Parsed JWT as relevant to VerifyJWT: the header algorithm, the
key_fingerprint claim, and the abstracted outcomes of the signature check
against the located key and of the claims validation. -/
structure Token where
  alg : JwtAlg
  keyFingerprint : String
  sigValid : Bool
  claimsValid : Bool
  deriving DecidableEq, Repr

/-- Embedding of auth.VerifyJWT: reject unacceptable signing methods,
locate the public key by the fingerprint claim, then require the library
signature and claims checks to pass; returns the fingerprint. -/
def verifyJWT (tok : Token) (cfg : AuthConfig) : Option String :=
  if ¬methodAccepted tok.alg then none
  else
    match cfg.keys.find? (fun k => k.publicKey = tok.keyFingerprint) with
    | none => none
    | some _ =>
      if tok.sigValid ∧ tok.claimsValid then some tok.keyFingerprint else none

/-! ### NPM package aggregation (src/npm/db/db.go)

Version metadata records are opaque payloads here; the store maps KV keys
to them. -/

/-- The NPM slice of the KV store: key to stored version metadata. -/
abbrev NpmStore := List (String × String)

/-- Embedding of store.Get on the NPM slice. -/
def npmGet (store : NpmStore) (key : String) : Option String :=
  (store.find? (fun kv => kv.1 = key)).map (fun kv => kv.2)

/-- Embedding of store.GetPrefix on the NPM slice, in store order. -/
def npmGetPfx (store : NpmStore) (pfx : String) : List (String × String) :=
  store.filter (fun kv => goHasPfx kv.1 pfx)

/-- Aggregated package document synthesized by DB.GetPackage. The versions
field records the successive Go map insertions in scan order. -/
structure AbbreviatedPackage where
  name : String
  versions : List (String × String)
  distTagsLatest : String
  deriving DecidableEq, Repr

/-- Loop body of DB.GetPackage: take the version from the key with
path.Base, decode it, fetch the metadata; on success insert it and
overwrite the latest-version tracker. -/
def getPackageStep (store : NpmStore)
    (acc : List (String × String) × Option String) (record : String × String) :
    List (String × String) × Option String :=
  let versionPart := goPathBase record.1
  match pathUnescape versionPart with
  | some decodedVersion =>
    match npmGet store record.1 with
    | some versionMetadata =>
      (acc.1 ++ [(decodedVersion, versionMetadata)], some decodedVersion)
    | none => acc
  | none => acc

/-- Embedding of DB.GetPackage: prefix scan under /npm/{escaped name}/,
collect the version records, and emit the document with the dist-tags
latest entry set to the tracker value. -/
def getPackage (store : NpmStore) (packageName : String) : Option AbbreviatedPackage :=
  let encodedName := pathEscape packageName
  let pfx := goPathJoin ["/npm", encodedName] ++ "/"
  let records := npmGetPfx store pfx
  if records.isEmpty then none
  else
    let res := records.foldl (getPackageStep store) ([], none)
    if res.1.isEmpty then none
    else some { name := packageName, versions := res.1, distTagsLatest := res.2.getD "" }

/-- Modelled from the spec: decimal number parsing for semver components. -/
def specParseNat (s : String) : Option Nat :=
  if s = "" then none
  else if s.data.all Char.isDigit then
    some (s.data.foldl (fun n c => 10 * n + (c.toNat - 48)) 0)
  else none

/-- Modelled from the spec: dotted three-component numeric semver, for
the highest-semver rule the spec prescribes for the latest dist-tag. -/
def specSemverParse (s : String) : Option (Nat × Nat × Nat) :=
  match goSplitChar s '.' with
  | [a, b, c] =>
    match specParseNat a, specParseNat b, specParseNat c with
    | some x, some y, some z => some (x, y, z)
    | _, _, _ => none
  | _ => none

/-- Modelled from the spec: semver ordering on parsed triples. -/
def specSemverLe (a b : Nat × Nat × Nat) : Bool :=
  if a.1 ≠ b.1 then a.1 ≤ b.1
  else if a.2.1 ≠ b.2.1 then a.2.1 ≤ b.2.1
  else a.2.2 ≤ b.2.2

/-- Modelled from the spec: the highest semver among a list of version
strings, the fallback the spec prescribes when no child key is literally
named latest. -/
def specHighestSemver (versions : List String) : Option String :=
  versions.foldl (fun best v =>
    match specSemverParse v with
    | none => best
    | some pv =>
      match best with
      | none => some v
      | some b =>
        match specSemverParse b with
        | none => some v
        | some pb => if specSemverLe pb pv then some v else some b) none

/-! ### Python push orchestrator (src/python/push/push.go) -/

/-- The binaryExtensions list of Pusher.Push, as written in the source. -/
def binaryExtensions : List String := [".gz", ".tar.gz", ".whl", ".zip"]

/-- Embedding of Go path/filepath Ext: the suffix of the final path
element beginning at its final dot; empty when it has no dot. -/
def goFilepathExt (p : String) : String :=
  let finalElem := (p.data.reverse.takeWhile (fun c => c ≠ '/')).reverse
  if finalElem.any (fun c => c = '.') then
    "." ++ String.mk ((finalElem.reverse.takeWhile (fun c => c ≠ '.')).reverse)
  else ""

/-- Embedding of the walk/classification loop of Pusher.Push over the
regular files found under the tree, given as slash-separated paths
relative to the root: json files are collected as metadata, files whose
extension is in binaryExtensions as binaries, everything else is skipped.
First component: metadataFiles; second: binaryFiles. -/
def pushClassify (files : List String) : List String × List String :=
  files.foldl (fun (acc : List String × List String) name =>
    if goHasSuffix name ".json" then (acc.1 ++ [name], acc.2)
    else if binaryExtensions.contains (goFilepathExt name) then (acc.1, acc.2 ++ [name])
    else acc) ([], [])

/-- Embedding of Pusher.pushFiles: each file is PUT to
target/python/relpath, in list order. -/
def pushFilesTargets (target : String) (files : List String) : List String :=
  files.map (fun relPath => target ++ "/python/" ++ relPath)

/-- Embedding of Pusher.Push: the ordered list of PUT target URLs; the
binary batch runs to completion before the metadata batch starts. -/
def pushTargets (target : String) (files : List String) : List String :=
  let classified := pushClassify files
  pushFilesTargets target classified.2 ++ pushFilesTargets target classified.1

/-! ### S3 Put writer (src/storage/s3.go)

S3.Put returns the write half of an io.Pipe while a goroutine feeds the
read half into a transfer-manager upload. The relevant events are the
return of Close on the pipe writer and the completion of UploadObject;
the step relation reflects their enabling conditions in the code: Close
returns unconditionally, and the upload can only complete after the
writer is closed (EOF on the pipe). -/

/-- Observable state of one S3 Put interaction. -/
structure S3PutState where
  closeReturned : Bool
  uploadComplete : Bool
  deriving DecidableEq, Repr

/-- Fresh state right after S3.Put hands out the pipe writer. -/
def s3PutInit : S3PutState := ⟨false, false⟩

/-- Interleaving steps of the caller thread (closing the writer) and the
upload goroutine (completing the multipart upload after EOF). Close has
no enabling condition on the upload: the pipe writer returns immediately. -/
inductive S3PutStep : S3PutState → S3PutState → Prop where
  | closeWriter (s : S3PutState) :
      s.closeReturned = false →
      S3PutStep s { s with closeReturned := true }
  | finishUpload (s : S3PutState) :
      s.closeReturned = true → s.uploadComplete = false →
      S3PutStep s { s with uploadComplete := true }

/-! ### Supporting lemmas -/

/-- Lookup immediately after storing a record under the same key. -/
theorem narDbGet_narDbPut_self (db : NarDb) (key : String) (ni : NarInfo) :
    narDbGet (narDbPut db key ni) key = some ni := by
  simp [narDbGet, narDbPut, List.find?]

/-! ### Claim C1: narinfo PUT hash-part validation -/

/-- C1: a narinfo PUT whose body parses is accepted with 201 and a stored
record exactly when the hash part of the URL filename equals the hash
part of the parsed StorePath; on mismatch the handler answers 400 and the
database is unchanged. -/
theorem narinfo_put_hash_guard (privateKey : Option (String → String))
    (db : NarDb) (urlPath : String) (ni : NarInfo) :
    ((handlerPut privateKey db urlPath (some ni)).1 = PutStatus.created ↔
      getHashPartFromStorePath ni.storePath =
        goTrimSuffix (goPathBase urlPath) ".narinfo") ∧
    (getHashPartFromStorePath ni.storePath ≠
        goTrimSuffix (goPathBase urlPath) ".narinfo" →
      (handlerPut privateKey db urlPath (some ni)).1 = PutStatus.badRequest ∧
      (handlerPut privateKey db urlPath (some ni)).2 = db) ∧
    (getHashPartFromStorePath ni.storePath =
        goTrimSuffix (goPathBase urlPath) ".narinfo" →
      (narDbGet (handlerPut privateKey db urlPath (some ni)).2 urlPath).isSome) := by
  by_cases h : getHashPartFromStorePath ni.storePath =
      goTrimSuffix (goPathBase urlPath) ".narinfo"
  · refine ⟨?_, fun hne => absurd h hne, fun _ => ?_⟩
    · simp [handlerPut, h]
    · cases privateKey with
      | none => simp [handlerPut, h, narDbGet_narDbPut_self]
      | some sign => simp [handlerPut, h, narDbGet_narDbPut_self]
  · refine ⟨?_, fun _ => ?_, fun heq => absurd heq h⟩
    · simp [handlerPut, h]
    · simp [handlerPut, h]

/-- Witness for C1 at a concrete mismatching upload: the URL names hash
16hv but the StorePath hash part is aaaa, so the PUT is rejected and the
empty database stays empty. -/
theorem narinfo_put_hash_guard_witness :
    (handlerPut none [] "/16hv.narinfo"
        (some ⟨"/nix/store/aaaa-x", "h", 1, [], []⟩)).1 = PutStatus.badRequest ∧
    (handlerPut none [] "/16hv.narinfo"
        (some ⟨"/nix/store/aaaa-x", "h", 1, [], []⟩)).2 = [] :=
  (narinfo_put_hash_guard none [] "/16hv.narinfo"
    ⟨"/nix/store/aaaa-x", "h", 1, [], []⟩).2.1 (by decide)

/-! ### Claim C3: server signature is appended, upstream signatures kept -/

/-- C3: when a signing key is configured, an accepted narinfo PUT stores
the uploaded record with its signature list extended by exactly one fresh
server signature over the canonical fingerprint; no uploaded signature is
removed or replaced. -/
theorem narinfo_put_appends_signature (sign : String → String) (db : NarDb)
    (urlPath : String) (ni : NarInfo)
    (h : getHashPartFromStorePath ni.storePath =
      goTrimSuffix (goPathBase urlPath) ".narinfo") :
    (handlerPut (some sign) db urlPath (some ni)).1 = PutStatus.created ∧
    narDbGet (handlerPut (some sign) db urlPath (some ni)).2 urlPath =
      some { ni with signatures := ni.signatures ++ [sign ni.fingerprint] } := by
  constructor
  · simp [handlerPut, h]
  · simp [handlerPut, h, narDbGet_narDbPut_self]

/-- Witness for C3: a concrete accepted upload with one upstream
signature gains exactly the server signature at the end. -/
theorem narinfo_put_appends_signature_witness :
    (handlerPut (some (fun fp => "depot-1:" ++ fp)) [] "/16hv.narinfo"
        (some ⟨"/nix/store/16hv-x", "h", 1, [], ["cache.nixos.org-1:abc"]⟩)).1 =
      PutStatus.created ∧
    narDbGet (handlerPut (some (fun fp => "depot-1:" ++ fp)) [] "/16hv.narinfo"
        (some ⟨"/nix/store/16hv-x", "h", 1, [], ["cache.nixos.org-1:abc"]⟩)).2
        "/16hv.narinfo" =
      some ⟨"/nix/store/16hv-x", "h", 1, [],
        ["cache.nixos.org-1:abc", "depot-1:" ++
          NarInfo.fingerprint ⟨"/nix/store/16hv-x", "h", 1, [], ["cache.nixos.org-1:abc"]⟩]⟩ :=
  narinfo_put_appends_signature (fun fp => "depot-1:" ++ fp) [] "/16hv.narinfo"
    ⟨"/nix/store/16hv-x", "h", 1, [], ["cache.nixos.org-1:abc"]⟩ (by decide)

/-! ### Claim C2: authentication middleware policy -/

/-- One line of LoadAuthConfig preserves the link between the
RequireAuthForRead flag and the presence of an r key. -/
theorem loadAuthLine_raf (parseKey : String → Option String)
    (cfg cfg2 : AuthConfig) (line : String)
    (hinv : cfg.requireAuthForRead = cfg.keys.any (fun k => k.permission = "r"))
    (h : loadAuthLine parseKey cfg line = some cfg2) :
    cfg2.requireAuthForRead = cfg2.keys.any (fun k => k.permission = "r") := by
  have hperm : ∀ (p0 : String) (pr : String × Bool),
      parsePermission cfg p0 = some pr →
      pr.2 = (cfg.requireAuthForRead || decide (pr.1 = "r")) := by
    intro p0 pr hp
    unfold parsePermission at hp
    split_ifs at hp
    · cases hp; simp
    · cases hp; simp
  simp only [loadAuthLine] at h
  split at h
  · cases h
    exact hinv
  · split at h
    case h_1 x p0 k1 k2 krest heq =>
      cases hp : parsePermission cfg p0 with
      | none => rw [hp] at h; cases h
      | some pr =>
        rw [hp] at h
        cases hk2 : parseKey (String.intercalate " " (k1 :: k2 :: krest)) with
        | none => rw [hk2] at h; cases h
        | some pk =>
          rw [hk2] at h
          injection h with h2
          subst h2
          have := hperm p0 pr hp
          simp [List.any_append, this, hinv, Bool.or_comm]
    case h_2 => cases h

/-- LoadAuthConfig sets RequireAuthForRead exactly when some parsed key
has the r permission. -/
theorem loadAuthConfig_raf_aux (parseKey : String → Option String) :
    ∀ (lines : List String) (cfg0 cfg : AuthConfig),
      cfg0.requireAuthForRead = cfg0.keys.any (fun k => k.permission = "r") →
      List.foldlM (loadAuthLine parseKey) cfg0 lines = some cfg →
      cfg.requireAuthForRead = cfg.keys.any (fun k => k.permission = "r")
  | [], cfg0, cfg, hinv, h => by
    simp [List.foldlM] at h
    exact h ▸ hinv
  | line :: rest, cfg0, cfg, hinv, h => by
    rw [List.foldlM_cons] at h
    cases hl : loadAuthLine parseKey cfg0 line with
    | none => rw [hl] at h; cases h
    | some cfg1 =>
      rw [hl] at h
      exact loadAuthConfig_raf_aux parseKey rest cfg1 cfg
        (loadAuthLine_raf parseKey cfg0 cfg1 line hinv hl) h

/-- The flag invariant at the top level of LoadAuthConfig. -/
theorem loadAuthConfig_raf (parseKey : String → Option String)
    (lines : List String) (cfg : AuthConfig)
    (h : loadAuthConfig parseKey lines = some cfg) :
    cfg.requireAuthForRead = cfg.keys.any (fun k => k.permission = "r") :=
  loadAuthConfig_raf_aux parseKey lines ⟨[], false⟩ cfg (by simp) h

/-- Once the middleware reaches its token checks, passing it requires a
header whose token the verifier accepts against a configured key. -/
theorem serveHTTP_requires_token (cfg : AuthConfig)
    (verify : String → AuthConfig → Option String) (r : Request)
    (hk : ¬cfg.keys.isEmpty)
    (hgate : (r.method = "PUT" ∨ r.method = "POST" ∨ r.method = "DELETE") ∨
      cfg.requireAuthForRead = true)
    (h : serveHTTP cfg verify r ≠ MwResult.unauthorized) :
    r.authHeader ≠ "" ∧
    ∃ fp, verify (bearerToken r.authHeader) cfg = some fp ∧
      (cfg.keys.find? (fun k => k.publicKey = fp)).isSome := by
  have hgate2 : ¬(¬(r.method = "PUT" ∨ r.method = "POST" ∨ r.method = "DELETE") ∧
      ¬cfg.requireAuthForRead = true) := by
    rcases hgate with hw | hr
    · exact fun hc => hc.1 hw
    · exact fun hc => hc.2 hr
  by_cases hh : r.authHeader = ""
  · exfalso
    apply h
    simp [serveHTTP, hk, hh]
    tauto
  · refine ⟨hh, ?_⟩
    cases hv : verify (bearerToken r.authHeader) cfg with
    | none =>
      exfalso
      apply h
      simp [serveHTTP, hk, hh, hv]
      tauto
    | some fp =>
      refine ⟨fp, rfl, ?_⟩
      cases hf : cfg.keys.find? (fun k => k.publicKey = fp) with
      | none =>
        exfalso
        apply h
        simp [serveHTTP, hk, hh, hv, hf]
        tauto
      | some k => simp

/-- C2: with no configured keys every request passes unauthenticated;
with at least one r key every request, read or write, passes only with a
header whose bearer token verifies against a configured key; with only w
keys configured, GET and HEAD requests pass unauthenticated while PUT,
POST and DELETE requests pass only with a verifying bearer token. -/
theorem auth_middleware_policy (parseKey : String → Option String)
    (lines : List String) (cfg : AuthConfig)
    (verify : String → AuthConfig → Option String) (r : Request)
    (hload : loadAuthConfig parseKey lines = some cfg) :
    (cfg.keys = [] → serveHTTP cfg verify r = MwResult.next) ∧
    ((∃ k ∈ cfg.keys, k.permission = "r") →
      serveHTTP cfg verify r ≠ MwResult.unauthorized →
      r.authHeader ≠ "" ∧
      ∃ fp, verify (bearerToken r.authHeader) cfg = some fp ∧
        (cfg.keys.find? (fun k => k.publicKey = fp)).isSome) ∧
    (cfg.keys ≠ [] → (∀ k ∈ cfg.keys, k.permission = "w") →
      ((r.method = "GET" ∨ r.method = "HEAD") →
        serveHTTP cfg verify r = MwResult.next) ∧
      ((r.method = "PUT" ∨ r.method = "POST" ∨ r.method = "DELETE") →
        serveHTTP cfg verify r ≠ MwResult.unauthorized →
        r.authHeader ≠ "" ∧
        ∃ fp, verify (bearerToken r.authHeader) cfg = some fp ∧
          (cfg.keys.find? (fun k => k.publicKey = fp)).isSome)) := by
  have hraf := loadAuthConfig_raf parseKey lines cfg hload
  refine ⟨?_, ?_, ?_⟩
  · intro hkeys
    unfold serveHTTP
    rw [if_pos (by simp [hkeys])]
  · intro hex
    have hk : ¬cfg.keys.isEmpty := by
      rcases hex with ⟨k, hk, _⟩
      cases hkeys : cfg.keys with
      | nil => rw [hkeys] at hk; cases hk
      | cons a l => simp [hkeys]
    have hrtrue : cfg.requireAuthForRead = true := by
      rw [hraf, List.any_eq_true]
      rcases hex with ⟨k, hkmem, hkperm⟩
      exact ⟨k, hkmem, by simp [hkperm]⟩
    exact serveHTTP_requires_token cfg verify r hk (Or.inr hrtrue)
  · intro hne hallw
    have hk : ¬cfg.keys.isEmpty := by
      cases hkeys : cfg.keys with
      | nil => exact absurd hkeys hne
      | cons a l => simp [hkeys]
    have hrfalse : cfg.requireAuthForRead = false := by
      rw [hraf]
      rw [List.any_eq_false]
      intro k hkmem
      simp [hallw k hkmem]
    constructor
    · intro hread
      unfold serveHTTP
      rw [if_neg hk]
      rw [if_pos]
      constructor
      · rcases hread with hg | hh
        · simp [hg]
        · simp [hh]
      · simp [hrfalse]
    · intro hwrite
      exact serveHTTP_requires_token cfg verify r hk (Or.inl hwrite)

/-- Witness for C2, combining all three policy branches at concrete
configurations: the empty config admits an unauthenticated GET; a config
with one w key admits an unauthenticated GET; and a PUT through that
config that is not rejected outright carries a verifying token. -/
theorem auth_middleware_policy_witness :
    serveHTTP ⟨[], false⟩ (fun _ _ => none) ⟨"GET", ""⟩ = MwResult.next ∧
    serveHTTP ⟨[⟨"w", "FPW"⟩], false⟩ (fun _ _ => none) ⟨"GET", ""⟩ = MwResult.next ∧
    ("T" ≠ "" ∧ ∃ fp, (fun (_ : String) (_ : AuthConfig) => some "FPW") "T"
        ⟨[⟨"w", "FPW"⟩], false⟩ = some fp ∧
      ((⟨[⟨"w", "FPW"⟩], false⟩ : AuthConfig).keys.find?
        (fun k => k.publicKey = fp)).isSome) := by
  refine ⟨?_, ?_, ?_⟩
  · exact (auth_middleware_policy (fun _ => none) [] ⟨[], false⟩
      (fun _ _ => none) ⟨"GET", ""⟩ (by decide)).1 rfl
  · exact ((auth_middleware_policy (fun s => some "FPW") ["w ssh-rsa AAAA"]
      ⟨[⟨"w", "FPW"⟩], false⟩ (fun _ _ => none) ⟨"GET", ""⟩ (by decide)).2.2
      (by decide) (by decide)).1 (Or.inl rfl)
  · exact ((auth_middleware_policy (fun s => some "FPW") ["w ssh-rsa AAAA"]
      ⟨[⟨"w", "FPW"⟩], false⟩ (fun _ _ => some "FPW") ⟨"PUT", "T"⟩ (by decide)).2.2
      (by decide) (by decide)).2 (Or.inl rfl) (by decide)

/-! ### Claim C4: accepted JWT algorithms -/

/-- C4 counterexample: a token whose header algorithm is RS512, signed
validly by an allowlisted key, passes VerifyJWT even though RS512 is
neither RS256 nor ES256 — the keyfunc type switch admits the whole RSA
method family. -/
theorem verifyJWT_accepts_rs512 :
    verifyJWT ⟨JwtAlg.rs512, "FP", true, true⟩ ⟨[⟨"w", "FP"⟩], false⟩ = some "FP" ∧
    JwtAlg.rs512 ≠ JwtAlg.rs256 ∧ JwtAlg.rs512 ≠ JwtAlg.es256 := by
  refine ⟨by decide, by decide, by decide⟩

/-- C4 (amended): verification succeeds only when the header algorithm
belongs to the RSA family (RS256, RS384, RS512) or the ECDSA family
(ES256, ES384, ES512); HS256, none and RSA-PSS tokens are always
rejected. -/
theorem verifyJWT_algorithm_families (tok : Token) (cfg : AuthConfig) :
    ((verifyJWT tok cfg).isSome →
      (tok.alg = JwtAlg.rs256 ∨ tok.alg = JwtAlg.rs384 ∨ tok.alg = JwtAlg.rs512 ∨
       tok.alg = JwtAlg.es256 ∨ tok.alg = JwtAlg.es384 ∨ tok.alg = JwtAlg.es512)) ∧
    ((tok.alg = JwtAlg.hs256 ∨ tok.alg = JwtAlg.algNone ∨ tok.alg = JwtAlg.ps256) →
      verifyJWT tok cfg = none) := by
  constructor
  · intro hs
    cases htok : tok.alg <;>
      simp_all [verifyJWT, methodAccepted]
  · intro hbad
    rcases hbad with h | h | h <;>
      simp [verifyJWT, methodAccepted, h]

/-- Witness for the amended C4: an RS512 token that verifies is in the
accepted families, and a concrete HS256 token is rejected. -/
theorem verifyJWT_algorithm_families_witness :
    ((⟨JwtAlg.rs512, "FP", true, true⟩ : Token).alg = JwtAlg.rs256 ∨
     (⟨JwtAlg.rs512, "FP", true, true⟩ : Token).alg = JwtAlg.rs384 ∨
     (⟨JwtAlg.rs512, "FP", true, true⟩ : Token).alg = JwtAlg.rs512 ∨
     (⟨JwtAlg.rs512, "FP", true, true⟩ : Token).alg = JwtAlg.es256 ∨
     (⟨JwtAlg.rs512, "FP", true, true⟩ : Token).alg = JwtAlg.es384 ∨
     (⟨JwtAlg.rs512, "FP", true, true⟩ : Token).alg = JwtAlg.es512) ∧
    verifyJWT ⟨JwtAlg.hs256, "FP", true, true⟩ ⟨[⟨"w", "FP"⟩], false⟩ = none :=
  ⟨(verifyJWT_algorithm_families ⟨JwtAlg.rs512, "FP", true, true⟩
      ⟨[⟨"w", "FP"⟩], false⟩).1 (by decide),
   (verifyJWT_algorithm_families ⟨JwtAlg.hs256, "FP", true, true⟩
      ⟨[⟨"w", "FP"⟩], false⟩).2 (Or.inl rfl)⟩

/-! ### Claim C5: NPM latest dist-tag synthesis -/

/-- Store with two versions of package a whose lexicographically last
child key is not the semver-highest version. -/
def npmDemoStore : NpmStore := [("/npm/a/0.10.0", "v1"), ("/npm/a/0.9.0", "v2")]

/-- C5 counterexample: with versions 0.10.0 and 0.9.0 and no child key
named latest, GetPackage reports latest 0.9.0 — the last scanned child
key — while the highest semver is 0.10.0. -/
theorem getPackage_latest_counterexample :
    Option.map (fun p => p.distTagsLatest) (getPackage npmDemoStore "a") =
      some "0.9.0" ∧
    Option.map (fun p => p.versions.map Prod.fst) (getPackage npmDemoStore "a") =
      some ["0.10.0", "0.9.0"] ∧
    (npmGetPfx npmDemoStore "/npm/a/").all
      (fun kv => goPathBase kv.1 ≠ "latest") = true ∧
    specHighestSemver ["0.10.0", "0.9.0"] = some "0.10.0" ∧
    "0.9.0" ≠ "0.10.0" := by
  refine ⟨by decide, by decide, by decide, by decide, by decide⟩

/-- Fold invariant of GetPackage: the latest-version tracker always holds
the version of the last inserted record. -/
theorem getPackageStep_inv (store : NpmStore) :
    ∀ (records : List (String × String)) (acc : List (String × String) × Option String),
      acc.2 = acc.1.getLast?.map Prod.fst →
      (records.foldl (getPackageStep store) acc).2 =
        (records.foldl (getPackageStep store) acc).1.getLast?.map Prod.fst
  | [], _, hinv => hinv
  | rec :: rest, acc, hinv => by
    rw [List.foldl_cons]
    apply getPackageStep_inv store rest
    unfold getPackageStep
    cases h1 : pathUnescape (goPathBase rec.1) with
    | none => simpa [h1] using hinv
    | some dv =>
      cases h2 : npmGet store rec.1 with
      | none => simpa [h1, h2] using hinv
      | some vm => simp [h1, h2, List.getLast?_concat]

/-- C5 (amended): for every package aggregate GET that finds at least one
version record, the synthesized latest dist-tag is the decoded child key
of the last record of the prefix scan that decodes and loads
successfully — the scan-order last writer — rather than a literal latest
child value or the highest semver. -/
theorem getPackage_latest_amended (store : NpmStore) (pkg : String)
    (res : AbbreviatedPackage) (h : getPackage store pkg = some res) :
    ∃ v, res.versions.getLast? = some (res.distTagsLatest, v) := by
  simp only [getPackage] at h
  split at h
  · cases h
  · split at h
    · cases h
    case isFalse hve =>
      injection h with h2
      subst h2
      have hinv := getPackageStep_inv store
        (npmGetPfx store (goPathJoin ["/npm", pathEscape pkg] ++ "/"))
        ([], none) (by simp)
      set F := List.foldl (getPackageStep store) ([], none)
        (npmGetPfx store (goPathJoin ["/npm", pathEscape pkg] ++ "/")) with hF
      cases hl : F.1.getLast? with
      | none =>
        rw [List.getLast?_eq_none_iff] at hl
        exact absurd (by simp [hl]) hve
      | some pr =>
        refine ⟨pr.2, ?_⟩
        show some pr = some (F.2.getD "", pr.2)
        rw [hinv, hl]
        simp

/-- Witness for the amended C5 at the demo store: the last scanned pair
is exactly the reported latest version. -/
theorem getPackage_latest_amended_witness :
    ∃ v, (⟨"a", [("0.10.0", "v1"), ("0.9.0", "v2")], "0.9.0"⟩ :
        AbbreviatedPackage).versions.getLast? = some ("0.9.0", v) :=
  getPackage_latest_amended npmDemoStore "a"
    ⟨"a", [("0.10.0", "v1"), ("0.9.0", "v2")], "0.9.0"⟩ (by decide)

/-! ### Claim C6: counter key versions count the puts -/

/-- Application of a sequence of unconditional puts, one per event, in
the order an interleaving serialised them. -/
def applyPuts (s : KVStore) (ops : List (String × String)) : KVStore :=
  ops.foldl (fun s o => kvPut s o.1 o.2) s

/-- Version lookup on the empty store. -/
theorem kvVersion_nil (k : String) : kvVersion [] k = 0 := rfl

/-- Version lookup steps through a cons cell. -/
theorem kvVersion_cons (r : KVRec) (l : KVStore) (k2 : String) :
    kvVersion (r :: l) k2 = if r.key = k2 then r.version else kvVersion l k2 := by
  by_cases h : r.key = k2 <;> simp [kvVersion, List.find?, h]

/-- A put bumps exactly the version of its own key. -/
theorem kvVersion_kvPut (s : KVStore) (k v k2 : String) :
    kvVersion (kvPut s k v) k2 =
      if k2 = k then kvVersion s k + 1 else kvVersion s k2 := by
  induction s with
  | nil =>
    by_cases h : k2 = k
    · simp [kvPut, kvVersion_cons, kvVersion_nil, h]
    · simp [kvPut, kvVersion_cons, kvVersion_nil, h, Ne.symm h]
  | cons r rest ih =>
    by_cases hr : r.key = k
    · by_cases h2 : k2 = k
      · subst h2
        simp [kvPut, hr, kvVersion_cons]
      · simp [kvPut, hr, kvVersion_cons, h2, Ne.symm h2,
          show ¬r.key = k2 from fun hc => h2 ((hr.symm.trans hc).symm)]
    · by_cases h2 : k2 = k
      · subst h2
        simp [kvPut, hr, kvVersion_cons, ih]
      · simp [kvPut, hr, kvVersion_cons, ih, h2]

/-- The version of a key after a batch of puts grows by the number of
puts addressed to it, whatever else is interleaved. -/
theorem kvVersion_applyPuts (ops : List (String × String)) :
    ∀ (s : KVStore) (k : String),
      kvVersion (applyPuts s ops) k =
        kvVersion s k + ops.countP (fun o => o.1 = k) := by
  induction ops with
  | nil => intro s k; simp [applyPuts]
  | cons o rest ih =>
    intro s k
    have hstep : applyPuts s (o :: rest) = applyPuts (kvPut s o.1 o.2) rest := rfl
    rw [hstep, ih, kvVersion_kvPut, List.countP_cons]
    by_cases h : k = o.1
    · simp [h]
      omega
    · simp [h, Ne.symm h]

/-- Putting a key absent from the store appends a fresh version-1 row. -/
theorem kvPut_fresh (s : KVStore) (k v : String)
    (h : ∀ r ∈ s, r.key ≠ k) : kvPut s k v = s ++ [⟨k, v, 1⟩] := by
  induction s with
  | nil => rfl
  | cons r rest ih =>
    have hr : ¬r.key = k := h r (by simp)
    simp only [kvPut, hr, if_false, List.cons_append, List.cons.injEq, true_and]
    exact ih (fun r2 hr2 => h r2 (by simp [hr2]))

/-- Putting a key held in the final row updates it in place. -/
theorem kvPut_existing (k v0 v : String) (m : Nat) :
    ∀ (s : KVStore), (∀ r ∈ s, r.key ≠ k) →
      kvPut (s ++ [⟨k, v0, m⟩]) k v = s ++ [⟨k, v, m + 1⟩]
  | [], _ => by simp [kvPut]
  | r :: rest, h => by
    have hr : ¬r.key = k := h r (by simp)
    simp only [List.cons_append, kvPut, hr, if_false, List.cons.injEq, true_and]
    exact kvPut_existing k v0 v m rest (fun r2 hr2 => h r2 (by simp [hr2]))

/-- Repeated puts to the key held in the final row accumulate in its
version counter. -/
theorem applyPuts_replicate_existing (k : String) :
    ∀ (n : Nat) (s : KVStore) (v0 : String) (m : Nat), (∀ r ∈ s, r.key ≠ k) →
      applyPuts (s ++ [⟨k, v0, m⟩]) (List.replicate n (k, "")) =
        s ++ [⟨k, (if n = 0 then v0 else ""), m + n⟩]
  | 0, s, v0, m, _ => by simp [applyPuts]
  | n + 1, s, v0, m, h => by
    rw [List.replicate_succ]
    have hstep : applyPuts (s ++ [⟨k, v0, m⟩]) ((k, "") :: List.replicate n (k, "")) =
        applyPuts (kvPut (s ++ [⟨k, v0, m⟩]) k "") (List.replicate n (k, "")) := rfl
    rw [hstep, kvPut_existing k v0 "" m s h,
      applyPuts_replicate_existing k n s "" (m + 1) h]
    have harith : m + 1 + n = m + (n + 1) := by omega
    rw [harith]
    by_cases hn : n = 0 <;> simp [hn]

/-- N repeated puts to a key absent from the store leave exactly one row
for it with version N. -/
theorem applyPuts_replicate_fresh (k : String) (n : Nat) (s : KVStore)
    (hn : 0 < n) (h : ∀ r ∈ s, r.key ≠ k) :
    applyPuts s (List.replicate n (k, "")) = s ++ [⟨k, "", n⟩] := by
  cases n with
  | zero => exact absurd hn (by simp)
  | succ n =>
    rw [List.replicate_succ]
    have hstep : applyPuts s ((k, "") :: List.replicate n (k, "")) =
        applyPuts (kvPut s k "") (List.replicate n (k, "")) := rfl
    rw [hstep, kvPut_fresh s k "" h, applyPuts_replicate_existing k n s "" 1 h]
    have harith : 1 + n = n + 1 := Nat.add_comm 1 n
    rw [harith]
    by_cases hn0 : n = 0 <;> simp [hn0]

/-- Folding a single element in the Option monad is one step. -/
theorem foldlM_single {α β : Type} (f : β → α → Option β) (init : β) (x : α) :
    List.foldlM f init [x] = f init x := by
  simp [List.foldlM]

/-- Filtering a singleton whose element passes keeps it. -/
theorem filter_single_pos {α : Type} (p : α → Bool) (x : α) (h : p x = true) :
    List.filter p [x] = [x] := by
  simp [List.filter, h]

/-- Evaluation of the Counter.Get loop body on a well-formed key. -/
theorem counterGetStep_eval (acc : List AccessCount) (row : KVRec)
    (a b c d2 : String)
    (hsplit : goSplitChar row.key '/' = ["", a, b, c, d2])
    (hday : parseDateISO d2 = some d2) :
    counterGetStep acc row = some (acc ++ [⟨d2, row.version⟩]) := by
  unfold counterGetStep
  rw [hsplit]
  simp [hday]

/-- Evaluation of the AccessLog.Get loop body on a well-formed read key. -/
theorem accessLogGetStep_eval (acc : AccessStats × Bool) (row : KVRec)
    (a b d2 : String)
    (hsplit : goSplitChar (goTrimLead row.key "/") '/' = [a, b, d2, "r"])
    (hday : parseDateISO d2 = some d2) :
    accessLogGetStep acc row =
      some ({ acc.1 with reads := acc.1.reads ++ [⟨d2, row.version⟩] }, true) := by
  unfold accessLogGetStep
  rw [hsplit]
  simp [hday]

/-- Prefix scan of a store with no matching rows plus one matching row
appended yields exactly that row. -/
theorem kvGetPfx_append_single (s : KVStore) (row : KVRec) (pfx : String)
    (hs : ∀ r ∈ s, goHasPfx r.key pfx = false)
    (hrow : goHasPfx row.key pfx = true) :
    kvGetPfx (s ++ [row]) pfx = [row] := by
  unfold kvGetPfx
  rw [List.filter_append]
  rw [List.filter_eq_nil_iff.mpr (fun r hr => by simp [hs r hr])]
  rw [filter_single_pos (fun r => goHasPfx r.key pfx) row hrow]
  exact List.nil_append _

/-- C6: granting the version-increment contract of the store, the version
of one fixed counter key after a batch of empty-value puts equals the
number of puts addressed to it, under any interleaving with puts to other
keys; and over a fresh prefix, Counter.Get reports exactly that count for
the day, as does AccessLog.Get for the read segment of an access-log key. -/
theorem counter_puts_version (s0 t0 u0 : KVStore) (group name day f : String)
    (key alkey : String)
    (ops : List (String × String)) (N n m : Nat)
    (hkey : key = buildCounterKey group name day)
    (halkey : alkey = accessLogKey f day "r")
    (h0 : kvVersion s0 key = 0)
    (hN : ops.countP (fun o => o.1 = key) = N)
    (hfresh : ∀ r ∈ t0, goHasPfx r.key (buildCounterPfx group name) = false)
    (hkeypfx : goHasPfx key (buildCounterPfx group name) = true)
    (hsplit : goSplitChar key '/' =
      ["", "downloadcounter", pathEscape group, pathEscape name, day])
    (hday : parseDateISO day = some day)
    (hn : 0 < n)
    (hfresh2 : ∀ r ∈ u0,
      goHasPfx r.key (goPathJoin ["/accesslog", pathEscape f] ++ "/") = false)
    (hkeypfx2 : goHasPfx alkey (goPathJoin ["/accesslog", pathEscape f] ++ "/") = true)
    (hsplit2 : goSplitChar (goTrimLead alkey "/") '/' =
      ["accesslog", pathEscape f, day, "r"])
    (hm : 0 < m) :
    kvVersion (applyPuts s0 ops) key = N ∧
    counterGet (applyPuts t0 (List.replicate n (key, ""))) group name =
      some [⟨day, n⟩] ∧
    accessLogGet (applyPuts u0 (List.replicate m (alkey, ""))) f =
      some (⟨f, [⟨day, m⟩], [], []⟩, true) := by
  refine ⟨?_, ?_, ?_⟩
  · rw [kvVersion_applyPuts, h0, hN]
    exact Nat.zero_add N
  · have hkey_t0 : ∀ r ∈ t0, r.key ≠ key := by
      intro r hr hc
      have hcontra := hfresh r hr
      rw [hc, hkeypfx] at hcontra
      cases hcontra
    rw [applyPuts_replicate_fresh _ n t0 hn hkey_t0]
    unfold counterGet
    rw [kvGetPfx_append_single t0 ⟨key, "", n⟩ (buildCounterPfx group name)
      hfresh hkeypfx]
    rw [foldlM_single,
      counterGetStep_eval [] ⟨key, "", n⟩ "downloadcounter" (pathEscape group)
        (pathEscape name) day hsplit hday,
      List.nil_append]
  · have hkey_u0 : ∀ r ∈ u0, r.key ≠ alkey := by
      intro r hr hc
      have hcontra := hfresh2 r hr
      rw [hc, hkeypfx2] at hcontra
      cases hcontra
    rw [applyPuts_replicate_fresh _ m u0 hm hkey_u0]
    unfold accessLogGet
    rw [kvGetPfx_append_single u0 ⟨alkey, "", m⟩
      (goPathJoin ["/accesslog", pathEscape f] ++ "/") hfresh2 hkeypfx2]
    rw [foldlM_single,
      accessLogGetStep_eval (⟨f, [], [], []⟩, false) ⟨alkey, "", m⟩ "accesslog"
        (pathEscape f) day hsplit2 hday]
    rfl

/-- Witness for C6: three puts to a concrete nix/sl counter key give
version 3; two give a Counter.Get count of 2; five reads of a.txt give an
AccessLog.Get read count of 5. -/
theorem counter_puts_version_witness :
    kvVersion (applyPuts []
      [(buildCounterKey "nix" "sl" "2024-01-02", ""),
       (buildCounterKey "nix" "sl" "2024-01-02", ""),
       (buildCounterKey "nix" "sl" "2024-01-02", "")])
      (buildCounterKey "nix" "sl" "2024-01-02") = 3 ∧
    counterGet (applyPuts []
      (List.replicate 2 (buildCounterKey "nix" "sl" "2024-01-02", "")))
      "nix" "sl" = some [⟨"2024-01-02", 2⟩] ∧
    accessLogGet (applyPuts []
      (List.replicate 5 (accessLogKey "a.txt" "2024-01-02" "r", ""))) "a.txt" =
      some (⟨"a.txt", [⟨"2024-01-02", 5⟩], [], []⟩, true) :=
  counter_puts_version [] [] [] "nix" "sl" "2024-01-02" "a.txt"
    (buildCounterKey "nix" "sl" "2024-01-02")
    (accessLogKey "a.txt" "2024-01-02" "r")
    [(buildCounterKey "nix" "sl" "2024-01-02", ""),
     (buildCounterKey "nix" "sl" "2024-01-02", ""),
     (buildCounterKey "nix" "sl" "2024-01-02", "")] 3 2 5
    rfl rfl (by decide) (by decide) (by simp) (by decide) (by decide)
    (by decide) (by decide) (by simp) (by decide) (by decide) (by decide)

/-! ### Claim C7: delete events in the access log -/

/-- C7 counterexample: the consumer dispatches a delete event for file f
to AccessLog.Write, so the empty store gains one row under the w segment
and the d segment of the day stays at version zero. -/
theorem consume_delete_writes_w_segment :
    consumeEvent [] "2024-01-02" ⟨"f", EventType.delete⟩ =
      [⟨"/accesslog/f/2024-01-02/w", "", 1⟩] ∧
    kvVersion (consumeEvent [] "2024-01-02" ⟨"f", EventType.delete⟩)
      (accessLogKey "f" "2024-01-02" "d") = 0 ∧
    accessLogKey "f" "2024-01-02" "d" = "/accesslog/f/2024-01-02/d" := by
  refine ⟨by decide, by decide, by decide⟩

/-- C7 (amended): every delete event consumed by the background consumer
is dispatched to AccessLog.Write, so the resulting KV Put lands under the
write segment (op w) of /accesslog/{escaped filename}/{day}/{op},
incrementing the w key version, exactly as a write event would. -/
theorem consume_delete_amended (s : KVStore) (day : String) (e : Event)
    (h : e.type = EventType.delete) :
    consumeEvent s day e = accessLogWrite s day e.filename ∧
    consumeEvent s day e = kvPut s (accessLogKey e.filename day "w") "" ∧
    consumeEvent s day e = consumeEvent s day ⟨e.filename, EventType.write⟩ ∧
    kvVersion (consumeEvent s day e) (accessLogKey e.filename day "w") =
      kvVersion s (accessLogKey e.filename day "w") + 1 := by
  have hc : consumeEvent s day e = accessLogWrite s day e.filename := by
    unfold consumeEvent
    rw [h]
  refine ⟨hc, hc, hc, ?_⟩
  rw [hc]
  unfold accessLogWrite
  rw [kvVersion_kvPut]
  simp

/-- Witness for the amended C7 at a concrete delete event. -/
theorem consume_delete_amended_witness :
    consumeEvent [] "2024-01-02" ⟨"g", EventType.delete⟩ =
      accessLogWrite [] "2024-01-02" "g" ∧
    consumeEvent [] "2024-01-02" ⟨"g", EventType.delete⟩ =
      kvPut [] (accessLogKey "g" "2024-01-02" "w") "" ∧
    consumeEvent [] "2024-01-02" ⟨"g", EventType.delete⟩ =
      consumeEvent [] "2024-01-02" ⟨"g", EventType.write⟩ ∧
    kvVersion (consumeEvent [] "2024-01-02" ⟨"g", EventType.delete⟩)
      (accessLogKey "g" "2024-01-02" "w") =
      kvVersion [] (accessLogKey "g" "2024-01-02" "w") + 1 :=
  consume_delete_amended [] "2024-01-02" ⟨"g", EventType.delete⟩ rfl

/-! ### Claim C8: Python push file selection and ordering -/

/-- C8 counterexample: a tree holding one bz2 archive produces no PUT at
all — the extension list of Pusher.Push does not contain bz2, so the
claimed upload of every bz2 file does not happen. -/
theorem push_skips_bz2 :
    pushTargets "t" ["a.tar.bz2"] = [] ∧
    goFilepathExt "a.tar.bz2" = ".bz2" ∧
    goHasSuffix "a.tar.bz2" ".json" = false := by
  refine ⟨by decide, by decide, by decide⟩

/-- The walk classification collects exactly the json files and the
binary-extension files, each in walk order. -/
theorem pushClassify_filters (files : List String) :
    pushClassify files =
      (files.filter (fun f => goHasSuffix f ".json"),
       files.filter (fun f =>
         ¬goHasSuffix f ".json" ∧ binaryExtensions.contains (goFilepathExt f))) := by
  have haux : ∀ (fs : List String) (m b : List String),
      fs.foldl (fun (acc : List String × List String) name =>
        if goHasSuffix name ".json" then (acc.1 ++ [name], acc.2)
        else if binaryExtensions.contains (goFilepathExt name) then
          (acc.1, acc.2 ++ [name])
        else acc) (m, b) =
      (m ++ fs.filter (fun f => goHasSuffix f ".json"),
       b ++ fs.filter (fun f =>
         ¬goHasSuffix f ".json" ∧ binaryExtensions.contains (goFilepathExt f))) := by
    intro fs
    induction fs with
    | nil => intro m b; simp
    | cons x rest ih =>
      intro m b
      rw [List.foldl_cons]
      by_cases hj : goHasSuffix x ".json"
      · rw [if_pos hj]
        rw [ih (m ++ [x]) b]
        simp [List.filter_cons, hj]
      · rw [if_neg hj]
        by_cases hb : binaryExtensions.contains (goFilepathExt x)
        · have hb2 : goFilepathExt x ∈ binaryExtensions := by simpa using hb
          rw [if_pos hb, ih m (b ++ [x])]
          simp [List.filter_cons, hj, hb, hb2]
        · have hb2 : goFilepathExt x ∉ binaryExtensions := by simpa using hb
          rw [if_neg hb, ih m b]
          simp [List.filter_cons, hj, hb, hb2]
  unfold pushClassify
  rw [haux files [] []]
  simp

/-- C8 (amended): Pusher.Push uploads, to target/python/relpath, exactly
the non-json files whose Go extension is in the source extension list
(gz, tar.gz, whl, zip — so bz2 archives are skipped, and tar.gz files
enter through their gz extension), and the whole binary batch is PUT
before the first json metadata file. -/
theorem push_order_amended (target : String) (files : List String) :
    pushTargets target files =
      pushFilesTargets target (files.filter (fun f =>
        ¬goHasSuffix f ".json" ∧ binaryExtensions.contains (goFilepathExt f))) ++
      pushFilesTargets target (files.filter (fun f => goHasSuffix f ".json")) ∧
    (∀ f ∈ files, goHasSuffix f ".json" = false →
      binaryExtensions.contains (goFilepathExt f) = true →
      (target ++ "/python/" ++ f) ∈ pushTargets target files) := by
  have hcl := pushClassify_filters files
  constructor
  · unfold pushTargets
    rw [hcl]
  · intro f hf hj hb
    unfold pushTargets
    rw [hcl]
    apply List.mem_append_left
    unfold pushFilesTargets
    apply List.mem_map_of_mem
    rw [List.mem_filter]
    refine ⟨hf, by simp [hj]; simpa using hb⟩

/-- Witness for the amended C8: one wheel and one metadata file at
concrete paths, with the wheel PUT listed first. -/
theorem push_order_amended_witness :
    pushTargets "t" ["p/b.whl", "p/meta.json"] =
      pushFilesTargets "t" (["p/b.whl", "p/meta.json"].filter (fun f =>
        ¬goHasSuffix f ".json" ∧ binaryExtensions.contains (goFilepathExt f))) ++
      pushFilesTargets "t" (["p/b.whl", "p/meta.json"].filter
        (fun f => goHasSuffix f ".json")) ∧
    ("t" ++ "/python/" ++ "p/b.whl") ∈ pushTargets "t" ["p/b.whl", "p/meta.json"] :=
  ⟨(push_order_amended "t" ["p/b.whl", "p/meta.json"]).1,
   (push_order_amended "t" ["p/b.whl", "p/meta.json"]).2 "p/b.whl"
     (by decide) (by decide) (by decide)⟩

/-! ### Claim C9: S3 Put writer Close and durability -/

/-- C9: the state in which Close has returned while the multipart upload
is still incomplete is reachable in one step from a fresh S3 Put — the
pipe writer Close returns immediately, so it does not block until the
bytes are durable. -/
theorem s3_close_returns_before_upload_completes :
    S3PutStep s3PutInit { closeReturned := true, uploadComplete := false } ∧
    ({ closeReturned := true, uploadComplete := false } : S3PutState).closeReturned = true ∧
    ({ closeReturned := true, uploadComplete := false } : S3PutState).uploadComplete = false :=
  ⟨S3PutStep.closeWriter s3PutInit rfl, rfl, rfl⟩

/-! ### Claim C10: reads of missing files are still logged -/

/-- C10: when the wrapped storage reports exists = false with no error,
Stat and Get still enqueue one read event, and consuming it performs the
AccessLog.Read put, incrementing the r-segment version for the day — so
daily read counts include accesses to files that do not exist. -/
theorem logged_read_event_for_missing_file (f : String) (res : StatResult)
    (gres : GetResult) (s : KVStore) (day : String)
    (h1 : res.hasError = false) (h2 : res.found = false)
    (h3 : gres.hasError = false) (h4 : gres.found = false) :
    (loggedStat f res).2 = [⟨f, EventType.read⟩] ∧
    (loggedGet f gres).2 = [⟨f, EventType.read⟩] ∧
    consumeEvents s day (loggedStat f res).2 = accessLogRead s day f ∧
    kvVersion (consumeEvents s day (loggedStat f res).2)
        (accessLogKey f day "r") =
      kvVersion s (accessLogKey f day "r") + 1 := by
  have hstat : (loggedStat f res).2 = [⟨f, EventType.read⟩] := by
    unfold loggedStat
    rw [h1]
    simp
  have hget : (loggedGet f gres).2 = [⟨f, EventType.read⟩] := by
    unfold loggedGet
    rw [h3]
    simp
  have hcons : consumeEvents s day (loggedStat f res).2 = accessLogRead s day f := by
    rw [hstat]
    rfl
  refine ⟨hstat, hget, hcons, ?_⟩
  rw [hcons]
  unfold accessLogRead
  rw [kvVersion_kvPut]
  simp

/-- Witness for C10: a missing file h.txt still produces a read event
whose consumption bumps the r-segment counter from zero to one. -/
theorem logged_read_event_for_missing_file_witness :
    (loggedStat "h.txt" ⟨0, false, false⟩).2 = [⟨"h.txt", EventType.read⟩] ∧
    (loggedGet "h.txt" ⟨false, false⟩).2 = [⟨"h.txt", EventType.read⟩] ∧
    consumeEvents [] "2024-01-02" (loggedStat "h.txt" ⟨0, false, false⟩).2 =
      accessLogRead [] "2024-01-02" "h.txt" ∧
    kvVersion (consumeEvents [] "2024-01-02"
        (loggedStat "h.txt" ⟨0, false, false⟩).2)
        (accessLogKey "h.txt" "2024-01-02" "r") =
      kvVersion [] (accessLogKey "h.txt" "2024-01-02" "r") + 1 :=
  logged_read_event_for_missing_file "h.txt" ⟨0, false, false⟩ ⟨false, false⟩
    [] "2024-01-02" rfl rfl rfl rfl

end Depot
